import Mathlib

/-!
Shallow embedding of the tbleveldb MySQL storage-engine shim
(src/leveldb/ha_ldb.cc, ha_ldb.h): a table adapter that maps row CRUD
operations onto a LevelDB key-value store using a per-session write batch
(trx_t) committed when the external table lock is released.

Byte buffers are modelled as lists of naturals, the LevelDB database as an
association list from key bytes to value bytes, the share registry
(ldb_open_tables) as a list of Share records, and the per-session
transaction (trx_t) as the ordered list of staged batch operations.
External library calls (leveldb::DB::Open, leveldb::DB::Write, my_compress,
my_uncompress) are parameterised by their outcome: a Bool for whether the
call reports an ok status, and explicit compress and uncompress functions
for the host compression pass.
-/

namespace TbLevelDB

/-- Row buffers, keys and values are byte strings. -/
abbrev Bytes := List Nat

/-- Error code HA_ERR_WRONG_COMMAND (131) from the host's my_base.h:
command not supported by this handler. -/
def HA_ERR_WRONG_COMMAND : Nat := 131

/-- Error code HA_ERR_END_OF_FILE (137) from the host's my_base.h:
no more rows / not found. -/
def HA_ERR_END_OF_FILE : Nat := 137

/-- Error code HA_ERR_WRONG_INDEX (124) from the host's my_base.h:
index declaration the handler cannot support. -/
def HA_ERR_WRONG_INDEX : Nat := 124

/-- The key-part types ha_ldb::get_key distinguishes
(HA_KEYTYPE_VARTEXT1, HA_KEYTYPE_VARBINARY1, HA_KEYTYPE_VARTEXT2,
HA_KEYTYPE_VARBINARY2); every other key type is collapsed into other. -/
inductive KeyType where
  | vartext1
  | varbinary1
  | vartext2
  | varbinary2
  | other
deriving DecidableEq, Repr

/-- Key-part descriptor: the fields of KEY_PART_INFO that ha_ldb reads.
offset and length are key_part->offset and key_part->length, keyType is
key_part->type, and varLengthPart records whether key_part->key_part_flag
has the HA_VAR_LENGTH_PART bit (read only by index_read). In MySQL the
flag is set exactly for variable-length key types, in particular for
HA_KEYTYPE_VARTEXT1. -/
structure KeyPart where
  offset : Nat
  length : Nat
  keyType : KeyType
  varLengthPart : Bool
deriving DecidableEq, Repr

/-- Translation of ha_ldb::get_key (ha_ldb.cc:414): bit_start is 1 for the
one-byte variable-length key types, 2 for the two-byte ones, 0 otherwise,
and the key is key_part->length bytes of the row buffer starting at
key_part->offset + bit_start. -/
def get_key (kp : KeyPart) (buf : Bytes) : Bytes :=
  let bs0 : Nat := 0
  let bs1 := if kp.keyType = KeyType.vartext1 ∨ kp.keyType = KeyType.varbinary1 then 1 else bs0
  let bs2 := if kp.keyType = KeyType.vartext2 ∨ kp.keyType = KeyType.varbinary2 then 2 else bs1
  (buf.drop (kp.offset + bs2)).take kp.length

/-- Prefix width of a key type as the spec's KeyCodec contract states it:
1 for one-byte variable-length key types, 2 for two-byte ones, 0
otherwise. Stated separately from get_key so that the two can be
compared. -/
def stripWidth : KeyType → Nat
  | KeyType.vartext1 => 1
  | KeyType.varbinary1 => 1
  | KeyType.vartext2 => 2
  | KeyType.varbinary2 => 2
  | KeyType.other => 0

/-- One staged operation of a leveldb::WriteBatch. -/
inductive BatchOp where
  | put (key value : Bytes)
  | del (key : Bytes)
deriving DecidableEq, Repr

/-- The key an operation touches. -/
def BatchOp.key : BatchOp → Bytes
  | BatchOp.put k _ => k
  | BatchOp.del k => k

/-- The per-session transaction object trx_t (ha_ldb.h:64): its WriteBatch,
modelled as the ordered list of staged operations. The pobj back-pointer
to the handler is represented by keeping the handler's store in the
combined state HaState below. -/
structure Trx where
  batch : List BatchOp
deriving DecidableEq, Repr

/-- The LevelDB database contents: an association list from key to value,
earliest binding first. -/
abbrev Store := List (Bytes × Bytes)

/-- Point lookup in the store (leveldb::DB::Get): the value bound to the
key, if any. -/
def storeGet : Store → Bytes → Option Bytes
  | [], _ => none
  | (k0, v) :: rest, k => if k = k0 then some v else storeGet rest k

/-- Effect of one batch operation on the store: Put binds the key to the
value (replacing any previous binding), Delete removes the binding. -/
def storeApplyOne (s : Store) : BatchOp → Store
  | BatchOp.put k v => (k, v) :: s.filter (fun p => p.1 ≠ k)
  | BatchOp.del k => s.filter (fun p => p.1 ≠ k)

/-- Atomic application of a whole batch (leveldb::DB::Write): the staged
operations are applied in the order they were staged. -/
def storeApplyBatch (s : Store) (ops : List BatchOp) : Store :=
  ops.foldl storeApplyOne s

/-- Value stored by ha_ldb::write_row (ha_ldb.cc:437): my_compress is run
on the first rec_buff_length bytes of the row buffer; on success the
compressed bytes are stored, on failure the raw bytes are stored.
compress models the host's my_compress call: some c when the call
succeeds leaving bytes c, none when it fails. -/
def rowValue (compress : Bytes → Option Bytes) (recBuffLen : Nat) (buf : Bytes) : Bytes :=
  match compress (buf.take recBuffLen) with
  | some c => c
  | none => buf.take recBuffLen

/-- Translation of ha_ldb::write_row (ha_ldb.cc:428): extract the key from
the row buffer with get_key, compress the row, and stage a Put of the
key and value on the session's batch. -/
def write_row (kp : KeyPart) (compress : Bytes → Option Bytes) (recBuffLen : Nat)
    (buf : Bytes) (t : Trx) : Trx :=
  { batch := t.batch ++ [BatchOp.put (get_key kp buf) (rowValue compress recBuffLen buf)] }

/-- Translation of ha_ldb::update_row (ha_ldb.cc:476): extract old and new
keys with get_key; when they differ, stage a Delete of the old key, then
perform write_row on the new row data. -/
def update_row (kp : KeyPart) (compress : Bytes → Option Bytes) (recBuffLen : Nat)
    (old_data new_data : Bytes) (t : Trx) : Trx :=
  let old_key := get_key kp old_data
  let new_key := get_key kp new_data
  let t1 := if old_key ≠ new_key then { batch := t.batch ++ [BatchOp.del old_key] } else t
  write_row kp compress recBuffLen new_data t1

/-- Translation of ha_ldb::delete_row (ha_ldb.cc:520): extract the key from
the row buffer with get_key and stage a Delete on the session's batch. -/
def delete_row (kp : KeyPart) (buf : Bytes) (t : Trx) : Trx :=
  { batch := t.batch ++ [BatchOp.del (get_key kp buf)] }

/-- Outcome of leveldb_open (ha_ldb.cc:1041): the status of
leveldb::DB::Open, the db handle (set only when the open is ok), and the
side effects on the globals: wo.sync is set to true and
options.write_buffer_size to 33554432 (32 MiB). openOk parameterises
whether the external leveldb::DB::Open reports an ok status; disk is the
persisted contents the open would load. -/
structure LdbOpenResult where
  status_ok : Bool
  db : Option Store
  woSync : Bool
  writeBufferSize : Nat
deriving DecidableEq, Repr

/-- Translation of leveldb_open (ha_ldb.cc:1041). -/
def leveldb_open (openOk : Bool) (create_if_missing : Bool) (disk : Store) : LdbOpenResult :=
  { status_ok := openOk
  , db := if openOk then some disk else none
  , woSync := true
  , writeBufferSize := 33554432 }

/-- One LEVELDB_SHARE record (ha_ldb.h:56): table name, reference count and
the db handle. -/
structure Share where
  table_name : String
  use_count : Nat
  db : Option Store
deriving DecidableEq, Repr

/-- The ldb_open_tables hash: at most one Share per table name. -/
abbrev Registry := List Share

/-- my_hash_search on ldb_open_tables: the registered Share for a table
name, if any. -/
def ldbFind (reg : Registry) (name : String) : Option Share :=
  reg.find? (fun sh => sh.table_name = name)

/-- Translation of get_share (ha_ldb.cc:179). If a Share for the name is
registered, its use_count is incremented. Otherwise a new Share is
allocated, leveldb_open is called with create_if_missing false — and its
returned Status is discarded by the source — the Share is registered with
use_count 0 and then incremented to 1. openOk name parameterises whether
the external open of that table's database reports ok; disk name is its
persisted contents. Host allocation (my_multi_malloc, my_hash_insert) is
modelled as succeeding, so the NULL-return paths of the source do not
arise. -/
def get_share (openOk : String → Bool) (disk : String → Store) (name : String)
    (reg : Registry) : Registry × Share :=
  match ldbFind reg name with
  | some sh =>
      let sh' : Share := { sh with use_count := sh.use_count + 1 }
      (reg.map (fun s => if s.table_name = name then sh' else s), sh')
  | none =>
      let opened := leveldb_open (openOk name) false (disk name)
      let sh : Share := { table_name := name, use_count := 1, db := opened.db }
      (sh :: reg, sh)

/-- Translation of free_share (ha_ldb.cc:233): decrement the share's
use_count; when it reaches 0, delete the db handle and remove the Share
from the registry. Always returns 0. -/
def free_share (name : String) (reg : Registry) : Registry × Nat :=
  (reg.filterMap (fun sh =>
      if sh.table_name = name then
        if sh.use_count - 1 = 0 then none
        else some { sh with use_count := sh.use_count - 1 }
      else some sh), 0)

/-- Translation of ha_ldb::open (ha_ldb.cc:350): call get_share and return
1 if it yields NULL, else 0. In this model get_share always yields a
share (allocation succeeds), so open returns 0 unconditionally —
mirroring that the source never inspects the leveldb open status. -/
def ha_open (openOk : String → Bool) (disk : String → Store) (name : String)
    (reg : Registry) : Registry × Share × Nat :=
  let r := get_share openOk disk name reg
  (r.1, r.2, 0)

/-- The MySQL TABLE_SHARE fields ha_ldb::create reads: s->key_parts and
s->uniques. -/
structure Schema where
  key_parts : Nat
  uniques : Nat
deriving DecidableEq, Repr

/-- Translation of ha_ldb::create (ha_ldb.cc:1074): return
HA_ERR_WRONG_INDEX unless the schema has exactly one key part and exactly
one unique key; otherwise call leveldb_open with create_if_missing true
and return 0 iff its status is ok. -/
def ha_create (openOk : Bool) (schema : Schema) : Nat :=
  if schema.key_parts ≠ 1 ∨ schema.uniques ≠ 1 then HA_ERR_WRONG_INDEX
  else if (leveldb_open openOk true []).status_ok then 0 else 1

/-- The lookup key ha_ldb::index_read (ha_ldb.cc:540) builds from its key
argument: bit_start is 2 iff the key part's key_part_flag has
HA_VAR_LENGTH_PART, else 0, and the key is key_len - bit_start bytes
starting at key + bit_start. -/
def index_read_key (kp : KeyPart) (key : Bytes) (key_len : Nat) : Bytes :=
  let bit_start := if kp.varLengthPart then 2 else 0
  (key.drop bit_start).take (key_len - bit_start)

/-- Translation of ha_ldb::index_read (ha_ldb.cc:540): Get the built key
from the store; on a miss return HA_ERR_END_OF_FILE, otherwise copy the
value into the row buffer, run my_uncompress on it (modelled by the
uncompress parameter) and return 0. -/
def index_read (uncompress : Bytes → Bytes) (kp : KeyPart) (st : Store)
    (key : Bytes) (key_len : Nat) : Option Bytes × Nat :=
  match storeGet st (index_read_key kp key key_len) with
  | none => (none, HA_ERR_END_OF_FILE)
  | some v => (some (uncompress v), 0)

/-- ha_ldb::index_next (ha_ldb.cc:571): leaves the row buffer untouched and
returns HA_ERR_END_OF_FILE. -/
def index_next (buf : Bytes) : Bytes × Nat := (buf, HA_ERR_END_OF_FILE)

/-- ha_ldb::index_prev (ha_ldb.cc:584): HA_ERR_WRONG_COMMAND, no row. -/
def index_prev (buf : Bytes) : Bytes × Nat := (buf, HA_ERR_WRONG_COMMAND)

/-- ha_ldb::index_first (ha_ldb.cc:605): HA_ERR_WRONG_COMMAND, no row. -/
def index_first (buf : Bytes) : Bytes × Nat := (buf, HA_ERR_WRONG_COMMAND)

/-- ha_ldb::index_last (ha_ldb.cc:626): HA_ERR_WRONG_COMMAND, no row. -/
def index_last (buf : Bytes) : Bytes × Nat := (buf, HA_ERR_WRONG_COMMAND)

/-- ha_ldb::rnd_init (ha_ldb.cc:650): HA_ERR_WRONG_COMMAND. -/
def rnd_init : Nat := HA_ERR_WRONG_COMMAND

/-- ha_ldb::rnd_end (ha_ldb.cc:656): HA_ERR_WRONG_COMMAND. -/
def rnd_end : Nat := HA_ERR_WRONG_COMMAND

/-- ha_ldb::rnd_next (ha_ldb.cc:677): leaves the row buffer untouched and
returns HA_ERR_WRONG_COMMAND. -/
def rnd_next (buf : Bytes) : Bytes × Nat := (buf, HA_ERR_WRONG_COMMAND)

/-- ha_ldb::rnd_pos (ha_ldb.cc:725): leaves the row buffer untouched and
returns HA_ERR_WRONG_COMMAND. -/
def rnd_pos (buf pos : Bytes) : Bytes × Nat := (buf, HA_ERR_WRONG_COMMAND)

/-- Combined state a session's handler sees: the sync flag of the global
WriteOptions wo, the store behind trx->pobj->share->db, and the session's
trx_t slot (thd ha_data), none when no transaction scope exists. -/
structure HaState where
  woSync : Bool
  store : Store
  session : Option Trx
deriving DecidableEq, Repr

/-- Observation of one leveldb::DB::Write call: the sync flag of the write
options it was given and the batch it applied. -/
structure CommitCall where
  sync : Bool
  ops : List BatchOp
deriving DecidableEq, Repr

/-- Translation of free_trx (ha_ldb.cc:257): delete the trx object and
clear the session's ha_data slot. -/
def free_trx (st : HaState) : HaState := { st with session := none }

/-- Translation of ha_ldb::external_lock (ha_ldb.cc:864). For a non-unlock
lock type: create a fresh trx with an empty batch if the session has
none, and return 0. For F_UNLCK: return 1 if the session has no trx;
otherwise call db->Write(wo, &trx->batch) — writeOk parameterises whether
that external call reports ok — then free_trx, and return !s.ok(). The
third component records the single Write call made, if any, with the
sync flag it was issued under. -/
def external_lock (writeOk : Bool) (isUnlock : Bool) (st : HaState) :
    HaState × Nat × Option CommitCall :=
  if isUnlock = false then
    match st.session with
    | some _ => (st, 0, none)
    | none => ({ st with session := some { batch := [] } }, 0, none)
  else
    match st.session with
    | none => (st, 1, none)
    | some t =>
        let st1 := if writeOk then { st with store := storeApplyBatch st.store t.batch } else st
        (free_trx st1, if writeOk then 0 else 1, some { sync := st.woSync, ops := t.batch })

/-- ha_ldb::write_row as a transition on the combined state: it only
appends to the session's batch (the store component is untouched).
The source dereferences the trx pointer unconditionally; under the host's
locking protocol the trx always exists, and when it does not the model
leaves the session unchanged. -/
def write_row_op (kp : KeyPart) (compress : Bytes → Option Bytes) (recBuffLen : Nat)
    (buf : Bytes) (st : HaState) : HaState × Nat :=
  ({ st with session := st.session.map (write_row kp compress recBuffLen buf) }, 0)

/-- ha_ldb::update_row as a transition on the combined state. -/
def update_row_op (kp : KeyPart) (compress : Bytes → Option Bytes) (recBuffLen : Nat)
    (old_data new_data : Bytes) (st : HaState) : HaState × Nat :=
  ({ st with session := st.session.map (update_row kp compress recBuffLen old_data new_data) }, 0)

/-- ha_ldb::delete_row as a transition on the combined state. -/
def delete_row_op (kp : KeyPart) (buf : Bytes) (st : HaState) : HaState × Nat :=
  ({ st with session := st.session.map (delete_row kp buf) }, 0)

/-- C3: update_row stages a Delete of the old key immediately followed by a
Put of the new key and value when the extracted keys differ, and stages
only the Put when the extracted keys are equal. -/
theorem update_row_stages_delete_then_put (kp : KeyPart) (compress : Bytes → Option Bytes)
    (recBuffLen : Nat) (old_data new_data : Bytes) (t : Trx) :
    (update_row kp compress recBuffLen old_data new_data t).batch =
      t.batch ++
        (if get_key kp old_data = get_key kp new_data then
          [BatchOp.put (get_key kp new_data) (rowValue compress recBuffLen new_data)]
        else
          [BatchOp.del (get_key kp old_data),
           BatchOp.put (get_key kp new_data) (rowValue compress recBuffLen new_data)]) := by
  by_cases h : get_key kp old_data = get_key kp new_data
  · simp [update_row, write_row, h]
  · simp [update_row, write_row, h]

/-- C4: create fails with HA_ERR_WRONG_INDEX (a nonzero invalid-schema
error) for every schema whose number of key parts or of unique keys
differs from one, and for a schema with exactly one key part and one
unique key it opens (creating) the store and succeeds iff that open
succeeds. -/
theorem create_validates_schema (openOk : Bool) (schema : Schema) :
    (schema.key_parts ≠ 1 ∨ schema.uniques ≠ 1 →
      ha_create openOk schema = HA_ERR_WRONG_INDEX ∧ ha_create openOk schema ≠ 0) ∧
    (schema.key_parts = 1 → schema.uniques = 1 →
      (ha_create openOk schema = 0 ↔ openOk = true)) := by
  constructor
  · intro h
    unfold ha_create
    rw [if_pos h]
    exact ⟨rfl, by decide⟩
  · intro h1 h2
    unfold ha_create
    rw [if_neg (by simp [h1, h2])]
    cases openOk <;> simp [leveldb_open]

/-- Witness for create_validates_schema at concrete schemas. -/
theorem create_validates_schema_witness :
    ha_create true { key_parts := 2, uniques := 1 } = HA_ERR_WRONG_INDEX ∧
    (ha_create true { key_parts := 1, uniques := 1 } = 0 ↔ true = true) :=
  ⟨((create_validates_schema true { key_parts := 2, uniques := 1 }).1 (Or.inl (by decide))).1,
   (create_validates_schema true { key_parts := 1, uniques := 1 }).2 rfl rfl⟩

/-- C6: every sequential-scan and index-traversal operation returns
HA_ERR_WRONG_COMMAND or HA_ERR_END_OF_FILE — both nonzero — and leaves
the row buffer untouched, so no row is ever produced. -/
theorem scans_never_return_rows (buf pos : Bytes) :
    index_next buf = (buf, HA_ERR_END_OF_FILE) ∧
    index_prev buf = (buf, HA_ERR_WRONG_COMMAND) ∧
    index_first buf = (buf, HA_ERR_WRONG_COMMAND) ∧
    index_last buf = (buf, HA_ERR_WRONG_COMMAND) ∧
    rnd_init = HA_ERR_WRONG_COMMAND ∧
    rnd_end = HA_ERR_WRONG_COMMAND ∧
    rnd_next buf = (buf, HA_ERR_WRONG_COMMAND) ∧
    rnd_pos buf pos = (buf, HA_ERR_WRONG_COMMAND) ∧
    HA_ERR_END_OF_FILE ≠ 0 ∧ HA_ERR_WRONG_COMMAND ≠ 0 :=
  ⟨rfl, rfl, rfl, rfl, rfl, rfl, rfl, rfl, by decide, by decide⟩

/-- C9: the store is never written outside the unlock transition. The
three mutation operations only change the session's batch, a non-unlock
external_lock call changes no store and performs no Write, and the only
Write call is issued by the unlock branch, on the session's batch. -/
theorem store_written_only_at_unlock :
    (∀ kp compress recBuffLen buf st,
      (write_row_op kp compress recBuffLen buf st).1.store = st.store) ∧
    (∀ kp compress recBuffLen old_data new_data st,
      (update_row_op kp compress recBuffLen old_data new_data st).1.store = st.store) ∧
    (∀ kp buf st, (delete_row_op kp buf st).1.store = st.store) ∧
    (∀ writeOk st, (external_lock writeOk false st).1.store = st.store ∧
      (external_lock writeOk false st).2.2 = none) ∧
    (∀ writeOk st, (external_lock writeOk true st).2.2 =
      st.session.map (fun t => { sync := st.woSync, ops := t.batch })) ∧
    (∀ writeOk st, (external_lock writeOk true st).1.store =
      if writeOk then st.session.elim st.store (fun t => storeApplyBatch st.store t.batch)
      else st.store) := by
  refine ⟨fun _ _ _ _ _ => rfl, fun _ _ _ _ _ _ => rfl, fun _ _ _ => rfl, ?_, ?_, ?_⟩
  · intro writeOk st
    cases hs : st.session <;> simp [external_lock, hs]
  · intro writeOk st
    cases hs : st.session <;> simp [external_lock, free_trx, hs]
  · intro writeOk st
    cases hs : st.session <;> cases writeOk <;> simp [external_lock, free_trx, hs]

/-- C10: the unlock branch for a session with no transaction scope returns
1 and changes nothing: no batch is applied and no scope is created or
destroyed. -/
theorem unlock_without_scope_fails (writeOk : Bool) (st : HaState)
    (h : st.session = none) :
    external_lock writeOk true st = (st, 1, none) := by
  simp [external_lock, h]

/-- Witness for unlock_without_scope_fails at a concrete state. -/
theorem unlock_without_scope_fails_witness :
    external_lock true true { woSync := true, store := [], session := none } =
      ({ woSync := true, store := [], session := none }, 1, none) :=
  unlock_without_scope_fails true { woSync := true, store := [], session := none } rfl

/-- C2 counterexample: with the underlying leveldb open reporting a non-ok
status for table t, get_share still registers a share (with a null db
handle) and ha_ldb::open returns 0 — the source discards the Status that
leveldb_open returns, so open does not fail. -/
theorem open_ignores_store_status_counterexample :
    (leveldb_open false false []).status_ok = false ∧
    (ha_open (fun _ => false) (fun _ => []) "t" []).2.2 = 0 ∧
    (ha_open (fun _ => false) (fun _ => []) "t" []).2.1.db = none :=
  ⟨rfl, rfl, rfl⟩

/-- C2 amended: open returns 0 whenever share allocation and registration
succeed, regardless of the status the underlying store open reports; for
a table not yet registered, the share's db handle is null exactly when
the underlying open failed, so a successful open does not imply a valid
handle. -/
theorem open_succeeds_regardless_of_store_status (openOk : String → Bool)
    (disk : String → Store) (name : String) (reg : Registry)
    (hfresh : ldbFind reg name = none) :
    (ha_open openOk disk name reg).2.2 = 0 ∧
    ((ha_open openOk disk name reg).2.1.db = none ↔ openOk name = false) := by
  unfold ha_open get_share
  rw [hfresh]
  cases h : openOk name <;> simp [leveldb_open, h]

/-- Witness for open_succeeds_regardless_of_store_status at a concrete
fresh registry. -/
theorem open_succeeds_regardless_of_store_status_witness :
    (ha_open (fun _ => false) (fun _ => ([] : Store)) "t" []).2.2 = 0 ∧
    ((ha_open (fun _ => false) (fun _ => ([] : Store)) "t" []).2.1.db = none ↔
      (fun _ : String => false) "t" = false) :=
  open_succeeds_regardless_of_store_status (fun _ => false) (fun _ => []) "t" [] rfl

/-- C8 counterexample: for a one-byte variable-length key part
(HA_KEYTYPE_VARTEXT1, whose key_part_flag carries HA_VAR_LENGTH_PART),
get_key strips a 1-byte length prefix but the point-lookup path
(index_read) strips 2 bytes of its key argument, so the extraction rules
are not applied identically. -/
theorem key_extraction_mismatch_counterexample :
    get_key { offset := 0, length := 2, keyType := KeyType.vartext1, varLengthPart := true }
        [10, 11, 12, 13] = [11, 12] ∧
    index_read_key { offset := 0, length := 2, keyType := KeyType.vartext1, varLengthPart := true }
        [10, 11, 12, 13] 4 = [12, 13] ∧
    ([11, 12] : Bytes) ≠ [12, 13] :=
  ⟨rfl, rfl, by decide⟩

/-- C8 amended: get_key returns the slice
row_buffer[offset+w : offset+w+declared_length] with w as the claim's
prefix table states, and this one extraction is what write_row,
update_row and delete_row stage their keys with; the point-lookup path
(index_read) instead builds its lookup key from its key argument by a
different rule — it strips 2 bytes iff the key part is flagged
variable-length and takes key_len minus that many bytes. -/
theorem get_key_slice_and_shared_use :
    (∀ kp buf, get_key kp buf =
      (buf.drop (kp.offset + stripWidth kp.keyType)).take kp.length) ∧
    (∀ kp compress recBuffLen buf t, (write_row kp compress recBuffLen buf t).batch =
      t.batch ++ [BatchOp.put (get_key kp buf) (rowValue compress recBuffLen buf)]) ∧
    (∀ kp compress recBuffLen old_data new_data t,
      (update_row kp compress recBuffLen old_data new_data t).batch =
        (if get_key kp old_data ≠ get_key kp new_data then
          t.batch ++ [BatchOp.del (get_key kp old_data)]
        else t.batch) ++
          [BatchOp.put (get_key kp new_data) (rowValue compress recBuffLen new_data)]) ∧
    (∀ kp buf t, (delete_row kp buf t).batch =
      t.batch ++ [BatchOp.del (get_key kp buf)]) ∧
    (∀ uncompress kp st key key_len, (index_read uncompress kp st key key_len).1 =
      (storeGet st ((key.drop (if kp.varLengthPart then 2 else 0)).take
        (key_len - (if kp.varLengthPart then 2 else 0)))).map uncompress) := by
  refine ⟨?_, fun _ _ _ _ _ => rfl, ?_, fun _ _ _ => rfl, ?_⟩
  · intro kp buf
    obtain ⟨o, l, kt, vl⟩ := kp
    cases kt <;> rfl
  · intro kp compress recBuffLen old_data new_data t
    by_cases h : get_key kp old_data = get_key kp new_data <;>
      simp [update_row, write_row, h]
  · intro uncompress kp st key key_len
    have hk : index_read_key kp key key_len =
        (key.drop (if kp.varLengthPart then 2 else 0)).take
          (key_len - (if kp.varLengthPart then 2 else 0)) := rfl
    rw [← hk]
    cases h : storeGet st (index_read_key kp key key_len) <;> simp [index_read, h]

/-- C1: releasing the write lock commits the pending batch in one Write
call issued with sync = true (leveldb_open sets wo.sync, and the state's
woSync records it); in both outcomes the trx is destroyed (free_trx runs
on success and on failure), on success the batch is applied and 0 is
returned, on failure the store is unchanged and 1 is returned, and any
later lock acquisition starts a fresh scope with an empty batch, so no
staged operation survives. -/
theorem unlock_commits_pending_batch (writeOk : Bool) (st : HaState) (t : Trx)
    (hs : st.session = some t) (hsync : st.woSync = true) :
    (external_lock writeOk true st).2.2 = some { sync := true, ops := t.batch } ∧
    (external_lock writeOk true st).1.session = none ∧
    ((external_lock writeOk true st).2.1 = 0 ↔ writeOk = true) ∧
    (writeOk = true →
      (external_lock writeOk true st).1.store = storeApplyBatch st.store t.batch) ∧
    (writeOk = false → (external_lock writeOk true st).1.store = st.store) ∧
    (∀ w2, (external_lock w2 false (external_lock writeOk true st).1).1.session =
      some { batch := [] }) ∧
    (∀ ok cim disk, (leveldb_open ok cim disk).woSync = true) := by
  cases writeOk <;>
    simp [external_lock, free_trx, hs, hsync, leveldb_open]

/-- Witness for unlock_commits_pending_batch at a concrete session state. -/
theorem unlock_commits_pending_batch_witness :
    (external_lock true true
      { woSync := true, store := [],
        session := some { batch := [BatchOp.put [1] [2]] } }).1.session = none ∧
    (external_lock true true
      { woSync := true, store := [],
        session := some { batch := [BatchOp.put [1] [2]] } }).2.2 =
      some { sync := true, ops := [BatchOp.put [1] [2]] } :=
  ⟨(unlock_commits_pending_batch true _ _ rfl rfl).2.1,
   (unlock_commits_pending_batch true _ _ rfl rfl).1⟩

/-- A lookup of key k is unaffected by filtering out the bindings of a
different key. -/
theorem storeGet_filter_ne (s : Store) (k k0 : Bytes) (h : k ≠ k0) :
    storeGet (s.filter (fun p => !decide (p.1 = k0))) k = storeGet s k := by
  induction s with
  | nil => rfl
  | cons hd tl ih =>
      obtain ⟨k1, v1⟩ := hd
      by_cases h1 : k1 = k0
      · subst h1
        have hk : ¬ k = k1 := h
        simp [List.filter_cons, storeGet, hk, ih]
      · simp [List.filter_cons, storeGet, h1, ih]

/-- After a Put of key k, looking up k yields the put value. -/
theorem storeGet_applyOne_self_put (s : Store) (k v : Bytes) :
    storeGet (storeApplyOne s (BatchOp.put k v)) k = some v := by
  simp [storeApplyOne, storeGet]

/-- A batch operation on a different key leaves the lookup of k unchanged. -/
theorem storeGet_applyOne_ne (s : Store) (op : BatchOp) (k : Bytes)
    (h : BatchOp.key op ≠ k) :
    storeGet (storeApplyOne s op) k = storeGet s k := by
  cases op with
  | put k0 v =>
      have h0 : ¬ k = k0 := fun e => h (by simp [BatchOp.key, e])
      simp only [storeApplyOne, ne_eq, decide_not, storeGet]
      rw [if_neg h0, storeGet_filter_ne _ _ _ h0]
  | del k0 =>
      have h0 : ¬ k = k0 := fun e => h (by simp [BatchOp.key, e])
      simp only [storeApplyOne, ne_eq, decide_not]
      rw [storeGet_filter_ne _ _ _ h0]

/-- A batch that touches no operation with key k leaves the lookup of k
unchanged. -/
theorem storeGet_applyBatch_untouched (s : Store) (ops : List BatchOp) (k : Bytes)
    (h : ∀ op ∈ ops, BatchOp.key op ≠ k) :
    storeGet (storeApplyBatch s ops) k = storeGet s k := by
  induction ops generalizing s with
  | nil => rfl
  | cons op rest ih =>
      have h1 : BatchOp.key op ≠ k := h op (List.mem_cons_self _ _)
      have h2 : ∀ o ∈ rest, BatchOp.key o ≠ k := fun o ho => h o (List.mem_cons_of_mem _ ho)
      calc storeGet (storeApplyBatch s (op :: rest)) k
          = storeGet (storeApplyBatch (storeApplyOne s op) rest) k := rfl
        _ = storeGet (storeApplyOne s op) k := ih _ h2
        _ = storeGet s k := storeGet_applyOne_ne _ _ _ h1

/-- In a batch whose last operation on key k is Put k v, applying the
batch binds k to v. -/
theorem storeGet_applyBatch_last_put (s : Store) (b rest : List BatchOp) (k v : Bytes)
    (h : ∀ op ∈ rest, BatchOp.key op ≠ k) :
    storeGet (storeApplyBatch s (b ++ BatchOp.put k v :: rest)) k = some v := by
  show storeGet (List.foldl storeApplyOne s (b ++ BatchOp.put k v :: rest)) k = some v
  rw [List.foldl_append, List.foldl_cons]
  have h1 : storeGet
      (storeApplyBatch (storeApplyOne (List.foldl storeApplyOne s b) (BatchOp.put k v)) rest) k =
      storeGet (storeApplyOne (List.foldl storeApplyOne s b) (BatchOp.put k v)) k :=
    storeGet_applyBatch_untouched _ _ _ h
  exact h1.trans (storeGet_applyOne_self_put _ _ _)

/-- C5: a row r staged by write_row, committed by a successful unlock, is
returned by a point lookup of its extracted key — equal to r after
decompression (uncompress inverting the write-side compression pass) —
provided no operation staged after it in the same batch touches that
key (a later write_row with the same key or a delete_row would be such
an operation, staged after it). The key part is a fixed-length one, so
index_read looks up exactly the extracted key bytes. -/
theorem write_row_commit_round_trip
    (kp : KeyPart) (compress : Bytes → Option Bytes) (uncompress : Bytes → Bytes)
    (recBuffLen : Nat) (r : Bytes) (t : Trx) (rest : List BatchOp) (st : HaState)
    (hvl : kp.varLengthPart = false)
    (hrt : uncompress (rowValue compress recBuffLen r) = r)
    (hrest : ∀ op ∈ rest, BatchOp.key op ≠ get_key kp r)
    (hs : st.session = some { batch := (write_row kp compress recBuffLen r t).batch ++ rest }) :
    index_read uncompress kp (external_lock true true st).1.store
        (get_key kp r) (get_key kp r).length = (some r, 0) := by
  have hkey : index_read_key kp (get_key kp r) (get_key kp r).length = get_key kp r := by
    simp [index_read_key, hvl]
  have hstore : (external_lock true true st).1.store =
      storeApplyBatch st.store
        (t.batch ++ BatchOp.put (get_key kp r) (rowValue compress recBuffLen r) :: rest) := by
    simp [external_lock, free_trx, hs, write_row]
  have hget := storeGet_applyBatch_last_put st.store t.batch rest (get_key kp r)
    (rowValue compress recBuffLen r) hrest
  simp [index_read, hkey, hstore, hget, hrt]

/-- Witness for write_row_commit_round_trip at a concrete row and state. -/
theorem write_row_commit_round_trip_witness :
    index_read id { offset := 0, length := 2, keyType := KeyType.other, varLengthPart := false }
      (external_lock true true
        { woSync := true, store := [],
          session := some { batch := [BatchOp.put [7, 8] [7, 8, 9]] } }).1.store
      [7, 8] 2 = (some [7, 8, 9], 0) :=
  write_row_commit_round_trip
    { offset := 0, length := 2, keyType := KeyType.other, varLengthPart := false }
    (fun _ => none) id 3 [7, 8, 9] { batch := [] } []
    { woSync := true, store := [], session := some { batch := [BatchOp.put [7, 8] [7, 8, 9]] } }
    rfl rfl (fun op hop => absurd hop (List.not_mem_nil op)) rfl

/-- When the registry lookup misses, no registered share carries the name. -/
theorem ldbFind_none_forall {reg : Registry} {name : String}
    (h : ldbFind reg name = none) : ∀ sh ∈ reg, sh.table_name ≠ name := by
  intro sh hm
  simp only [ldbFind] at h
  have := List.find?_eq_none.mp h sh hm
  simpa using this

/-- When the registry lookup hits, the found share carries the name. -/
theorem ldbFind_some_name {reg : Registry} {name : String} {sh : Share}
    (h : ldbFind reg name = some sh) : sh.table_name = name := by
  simp only [ldbFind] at h
  have := List.find?_some h
  simpa using this

/-- Updating the shares of an absent name is the identity on the registry. -/
theorem map_update_of_absent (reg : Registry) (name : String) (sh' : Share)
    (h : ∀ sh ∈ reg, sh.table_name ≠ name) :
    reg.map (fun s => if s.table_name = name then sh' else s) = reg := by
  induction reg with
  | nil => rfl
  | cons hd tl ih =>
      have h1 : hd.table_name ≠ name := h hd (List.mem_cons_self _ _)
      have h2 : ∀ sh ∈ tl, sh.table_name ≠ name := fun sh hs => h sh (List.mem_cons_of_mem _ hs)
      simp [h1, ih h2]

/-- Freeing a share of an absent name leaves the registry unchanged. -/
theorem filterMap_free_of_absent (name : String) (reg : Registry)
    (h : ∀ sh ∈ reg, sh.table_name ≠ name) :
    (reg.filterMap (fun sh =>
      if sh.table_name = name then
        if sh.use_count - 1 = 0 then none
        else some { sh with use_count := sh.use_count - 1 }
      else some sh)) = reg := by
  induction reg with
  | nil => rfl
  | cons hd tl ih =>
      have h1 : hd.table_name ≠ name := h hd (List.mem_cons_self _ _)
      have h2 : ∀ sh ∈ tl, sh.table_name ≠ name := fun sh hs => h sh (List.mem_cons_of_mem _ hs)
      simp [List.filterMap_cons, h1, ih h2]

/-- When the name is already registered, get_share leaves the list of
registered table names unchanged. -/
theorem get_share_names_found (openOk : String → Bool) (disk : String → Store)
    (name : String) (reg : Registry) (sh : Share) (hf : ldbFind reg name = some sh) :
    (get_share openOk disk name reg).1.map Share.table_name =
      reg.map Share.table_name := by
  have hname : sh.table_name = name := ldbFind_some_name hf
  simp only [get_share, hf, List.map_map]
  apply List.map_congr_left
  intro s _
  by_cases h1 : s.table_name = name
  · simp [h1, hname]
  · simp [h1]

/-- free_share never adds names: the resulting name list is a sublist of
the original one. -/
theorem free_share_names_sublist (name : String) (reg : Registry) :
    ((free_share name reg).1.map Share.table_name).Sublist
      (reg.map Share.table_name) := by
  induction reg with
  | nil => simp [free_share]
  | cons hd tl ih =>
      simp only [free_share, List.filterMap_cons] at ih ⊢
      by_cases h1 : hd.table_name = name
      · by_cases h2 : hd.use_count - 1 = 0
        · simp only [h1, if_pos rfl, h2, if_pos rfl, List.map_cons]
          exact ih.cons _
        · simp only [h1, if_pos rfl, if_neg h2, List.map_cons]
          exact ih.cons₂ _
      · simp only [if_neg h1, List.map_cons]
        exact ih.cons₂ _

/-- C7: reference counting of the share registry. Starting from a registry
with no entry for the table, the first open registers a share with
use_count 1 whose db is opened from the persisted state; a second open of
the same name leaves one entry with use_count 2; one close leaves the
store registered with use_count 1; the second close removes it, restoring
the original registry; a further open constructs a fresh share whose db
is read from the state persisted at that moment. Moreover both get_share
and free_share preserve distinctness of registered names, so at most one
entry per table name ever exists. -/
theorem share_registry_refcount (openOk openOk2 : String → Bool)
    (disk disk2 : String → Store) (name : String) (reg0 : Registry)
    (hfresh : ldbFind reg0 name = none)
    (hok : openOk name = true) (hok2 : openOk2 name = true) :
    (get_share openOk disk name reg0).2 =
      { table_name := name, use_count := 1, db := some (disk name) } ∧
    ldbFind (get_share openOk disk name reg0).1 name =
      some { table_name := name, use_count := 1, db := some (disk name) } ∧
    ldbFind (get_share openOk disk name (get_share openOk disk name reg0).1).1 name =
      some { table_name := name, use_count := 2, db := some (disk name) } ∧
    ldbFind (free_share name
        (get_share openOk disk name (get_share openOk disk name reg0).1).1).1 name =
      some { table_name := name, use_count := 1, db := some (disk name) } ∧
    (free_share name (free_share name
        (get_share openOk disk name (get_share openOk disk name reg0).1).1).1).1 = reg0 ∧
    (get_share openOk2 disk2 name reg0).2 =
      { table_name := name, use_count := 1, db := some (disk2 name) } ∧
    (∀ reg : Registry, (reg.map Share.table_name).Nodup →
      ((get_share openOk disk name reg).1.map Share.table_name).Nodup ∧
      ((free_share name reg).1.map Share.table_name).Nodup) := by
  have habs := ldbFind_none_forall hfresh
  have hreg1 : (get_share openOk disk name reg0).1 =
      { table_name := name, use_count := 1, db := some (disk name) } :: reg0 := by
    simp [get_share, hfresh, leveldb_open, hok]
  have hsh1 : (get_share openOk disk name reg0).2 =
      { table_name := name, use_count := 1, db := some (disk name) } := by
    simp [get_share, hfresh, leveldb_open, hok]
  have hfind1 : ldbFind
      ({ table_name := name, use_count := 1, db := some (disk name) } :: reg0) name =
      some { table_name := name, use_count := 1, db := some (disk name) } :=
    List.find?_cons_of_pos _ (by simp)
  have hreg2 : (get_share openOk disk name
      ({ table_name := name, use_count := 1, db := some (disk name) } :: reg0)).1 =
      { table_name := name, use_count := 2, db := some (disk name) } :: reg0 := by
    simp [get_share, hfind1,
      map_update_of_absent reg0 name
        { table_name := name, use_count := 2, db := some (disk name) } habs]
  have hfind2 : ldbFind
      ({ table_name := name, use_count := 2, db := some (disk name) } :: reg0) name =
      some { table_name := name, use_count := 2, db := some (disk name) } :=
    List.find?_cons_of_pos _ (by simp)
  have hfree2 : (free_share name
      ({ table_name := name, use_count := 2, db := some (disk name) } :: reg0)).1 =
      { table_name := name, use_count := 1, db := some (disk name) } :: reg0 := by
    simp [free_share, List.filterMap_cons, filterMap_free_of_absent name reg0 habs]
  have hfree1 : (free_share name
      ({ table_name := name, use_count := 1, db := some (disk name) } :: reg0)).1 = reg0 := by
    simp [free_share, List.filterMap_cons, filterMap_free_of_absent name reg0 habs]
  refine ⟨hsh1, ?_, ?_, ?_, ?_, ?_, ?_⟩
  · rw [hreg1]; exact hfind1
  · rw [hreg1, hreg2]; exact hfind2
  · rw [hreg1, hreg2, hfree2]; exact hfind1
  · rw [hreg1, hreg2, hfree2, hfree1]
  · simp [get_share, hfresh, leveldb_open, hok2]
  · intro reg hnd
    constructor
    · cases hf : ldbFind reg name with
      | none =>
          have habs2 := ldbFind_none_forall hf
          have hmem : name ∉ reg.map Share.table_name := by
            intro hm
            obtain ⟨sh, hsh, he⟩ := List.mem_map.mp hm
            exact habs2 sh hsh he
          simp only [get_share, hf, List.map_cons]
          exact List.Nodup.cons (fun hm => hmem hm) hnd
      | some sh =>
          rw [get_share_names_found openOk disk name reg sh hf]
          exact hnd
    · exact (free_share_names_sublist name reg).nodup hnd

/-- Witness for share_registry_refcount at a concrete table and registry. -/
theorem share_registry_refcount_witness :
    ldbFind (free_share "t" (get_share (fun _ => true) (fun _ => [([1], [2])]) "t"
        (get_share (fun _ => true) (fun _ => [([1], [2])]) "t" []).1).1).1 "t" =
      some { table_name := "t", use_count := 1, db := some [([1], [2])] } ∧
    (free_share "t" (free_share "t" (get_share (fun _ => true) (fun _ => [([1], [2])]) "t"
        (get_share (fun _ => true) (fun _ => [([1], [2])]) "t" []).1).1).1).1 = [] := by
  have h := share_registry_refcount (fun _ => true) (fun _ => true)
      (fun _ => [([1], [2])]) (fun _ => [([3], [4])]) "t" [] rfl rfl rfl
  exact ⟨h.2.2.2.1, h.2.2.2.2.1⟩

end TbLevelDB
